import Mathlib

/-!
Verification of the result-aggregation and caption-injection pipeline of the
standalone video API (`server.js` / `app.js`).

The provider result trees handled by the code are arbitrary JSON values, so we
shallow-embed them as the inductive `JVal`.  JavaScript objects are modelled as
association lists whose order is the insertion / `Object.keys` iteration order
(the trees at play carry only non-integer string keys, for which this is the
exact ECMAScript iteration order).  Platform built-ins (`new URL(..).host`,
`Number(..)`) are passed in as explicit function parameters or pre-converted
arguments; network calls appear as environment records holding each upstream
response as an `Except`.

In-place mutation of the tree by `injectCaptionsForHost` is modelled as a pure
transformation.  Because the source walks the freshly reassigned `captions`
array (whose new elements come from the caption argument, not from the tree),
the walk is not structurally recursive; the model therefore uses explicit fuel
and returns `none` exactly where the JavaScript recursion would not terminate
(unbounded re-injection).  Property access on `null` (a TypeError in JS) is
modelled as yielding `undefined`; the claims checked here are insensitive to
that corner, and it is noted where relevant.
-/

/-- A JSON value: the shape of provider result trees, caption records and
upstream payloads.  Objects are ordered association lists. -/
inductive JVal where
  | null : JVal
  | bool : Bool → JVal
  | num : Int → JVal
  | str : String → JVal
  | arr : List JVal → JVal
  | obj : List (String × JVal) → JVal
deriving Repr

/-- Premises for simultaneous induction over a JSON value, the element lists of
its arrays and the field lists of its objects. -/
structure JValMotives (P : JVal → Prop) (Pl : List JVal → Prop)
    (Pf : List (String × JVal) → Prop) : Prop where
  hnull : P .null
  hbool : ∀ b, P (.bool b)
  hnum : ∀ n, P (.num n)
  hstr : ∀ s, P (.str s)
  harr : ∀ xs, Pl xs → P (.arr xs)
  hobj : ∀ fs, Pf fs → P (.obj fs)
  hnil : Pl []
  hcons : ∀ x xs, P x → Pl xs → Pl (x :: xs)
  hfnil : Pf []
  hfcons : ∀ k v fs, P v → Pf fs → Pf ((k, v) :: fs)

mutual

/-- Simultaneous induction over JSON values (value part). -/
theorem jval_ind {P Pl Pf} (M : JValMotives P Pl Pf) : ∀ v, P v
  | .null => M.hnull
  | .bool b => M.hbool b
  | .num n => M.hnum n
  | .str s => M.hstr s
  | .arr xs => M.harr xs (jval_indList M xs)
  | .obj fs => M.hobj fs (jval_indFields M fs)

/-- Simultaneous induction over JSON values (array-elements part). -/
theorem jval_indList {P Pl Pf} (M : JValMotives P Pl Pf) : ∀ xs, Pl xs
  | [] => M.hnil
  | x :: xs => M.hcons x xs (jval_ind M x) (jval_indList M xs)

/-- Simultaneous induction over JSON values (object-fields part). -/
theorem jval_indFields {P Pl Pf} (M : JValMotives P Pl Pf) : ∀ fs, Pf fs
  | [] => M.hfnil
  | (k, v) :: fs => M.hfcons k v fs (jval_ind M v) (jval_indFields M fs)

end

mutual

/-- Structural boolean equality of JSON values. -/
def JVal.beq : JVal → JVal → Bool
  | .null, .null => true
  | .bool a, .bool b => a == b
  | .num a, .num b => a == b
  | .str a, .str b => a == b
  | .arr a, .arr b => JVal.beqList a b
  | .obj a, .obj b => JVal.beqFields a b
  | _, _ => false

/-- Elementwise boolean equality of JSON value lists. -/
def JVal.beqList : List JVal → List JVal → Bool
  | [], [] => true
  | x :: xs, y :: ys => JVal.beq x y && JVal.beqList xs ys
  | _, _ => false

/-- Fieldwise boolean equality of JSON object field lists. -/
def JVal.beqFields : List (String × JVal) → List (String × JVal) → Bool
  | [], [] => true
  | (k, v) :: xs, (k2, v2) :: ys => k == k2 && JVal.beq v v2 && JVal.beqFields xs ys
  | _, _ => false

end

mutual

/-- Lemma: `JVal.beq` decides propositional equality. -/
theorem JVal.beq_eq : ∀ a b : JVal, JVal.beq a b = true ↔ a = b
  | .null, b => by cases b <;> simp [JVal.beq]
  | .bool x, b => by cases b <;> simp [JVal.beq]
  | .num x, b => by cases b <;> simp [JVal.beq]
  | .str x, b => by cases b <;> simp [JVal.beq]
  | .arr xs, b => by
      cases b with
      | arr ys =>
          simp only [JVal.beq, JVal.arr.injEq]
          exact JVal.beqList_eq xs ys
      | null => simp [JVal.beq]
      | bool y => simp [JVal.beq]
      | num y => simp [JVal.beq]
      | str y => simp [JVal.beq]
      | obj y => simp [JVal.beq]
  | .obj fs, b => by
      cases b with
      | obj gs =>
          simp only [JVal.beq, JVal.obj.injEq]
          exact JVal.beqFields_eq fs gs
      | null => simp [JVal.beq]
      | bool y => simp [JVal.beq]
      | num y => simp [JVal.beq]
      | str y => simp [JVal.beq]
      | arr y => simp [JVal.beq]

/-- Lemma: `JVal.beqList` decides propositional equality of lists. -/
theorem JVal.beqList_eq : ∀ xs ys : List JVal, JVal.beqList xs ys = true ↔ xs = ys
  | [], ys => by cases ys <;> simp [JVal.beqList]
  | x :: xs, ys => by
      cases ys with
      | nil => simp [JVal.beqList]
      | cons y ys =>
          simp only [JVal.beqList, Bool.and_eq_true, List.cons.injEq]
          rw [JVal.beq_eq x y, JVal.beqList_eq xs ys]

/-- Lemma: `JVal.beqFields` decides propositional equality of field lists. -/
theorem JVal.beqFields_eq :
    ∀ fs gs : List (String × JVal), JVal.beqFields fs gs = true ↔ fs = gs
  | [], gs => by cases gs <;> simp [JVal.beqFields]
  | (k, v) :: fs, gs => by
      cases gs with
      | nil => simp [JVal.beqFields]
      | cons g gs =>
          obtain ⟨k2, v2⟩ := g
          simp only [JVal.beqFields, Bool.and_eq_true, List.cons.injEq, Prod.mk.injEq,
            beq_iff_eq]
          rw [JVal.beq_eq v v2, JVal.beqFields_eq fs gs]

end

instance : DecidableEq JVal := fun a b =>
  decidable_of_iff (JVal.beq a b = true) (JVal.beq_eq a b)

/-- Lookup `o[k]` for a JS object modelled as an ordered association list:
first binding wins (JS objects cannot carry duplicate keys). -/
def lookupField : List (String × JVal) → String → Option JVal
  | [], _ => none
  | (k, v) :: rest, key => if k = key then some v else lookupField rest key

/-- Assignment `o[k] = v` on an ordered association list: an existing key keeps its
position, a new key is appended at the end (JS property insertion order). -/
def setField : List (String × JVal) → String → JVal → List (String × JVal)
  | [], key, v => [(key, v)]
  | (k, w) :: rest, key, v =>
      if k = key then (key, v) :: rest else (k, w) :: setField rest key v

mutual

/-- Source `findFirstPlaylist` from `server.js` (and identically `app.js`): depth-first
search for the first non-empty string stored in a `playlist` property.  At an
object node with such a property the string is returned at once; otherwise the
walk descends into every array element and nested object value in key order.
JS note: `typeof x === "object"` holds for arrays, so a bare array is walked
elementwise, and per-field array values are walked item by item — both coincide
with the `arr` case below. -/
def findFirstPlaylist : JVal → Option String
  | .arr items => findFirstPlaylistList items
  | .obj fields =>
      match lookupField fields "playlist" with
      | some (.str s) =>
          if s.length > 0 then some s else findFirstPlaylistFields fields
      | _ => findFirstPlaylistFields fields
  | _ => none

/-- The walk of `findFirstPlaylist` over the elements of an array value. -/
def findFirstPlaylistList : List JVal → Option String
  | [] => none
  | x :: xs =>
      match findFirstPlaylist x with
      | some r => some r
      | none => findFirstPlaylistList xs

/-- The walk of `findFirstPlaylist` over the field values of an object. -/
def findFirstPlaylistFields : List (String × JVal) → Option String
  | [] => none
  | (_, v) :: rest =>
      match findFirstPlaylist v with
      | some r => some r
      | none => findFirstPlaylistFields rest

end

mutual

/-- Specification-side pre-order collector: every non-empty string `playlist`
value in the tree, the node's own entry first, then the descendants in
encounter order.  `findFirstPlaylist` is proved to return the head of this
list. -/
def collectPlaylists : JVal → List String
  | .arr items => collectPlaylistsList items
  | .obj fields =>
      (match lookupField fields "playlist" with
       | some (.str s) => if s.length > 0 then [s] else []
       | _ => []) ++ collectPlaylistsFields fields
  | _ => []

/-- Pre-order playlist collection over array elements. -/
def collectPlaylistsList : List JVal → List String
  | [] => []
  | x :: xs => collectPlaylists x ++ collectPlaylistsList xs

/-- Pre-order playlist collection over object field values. -/
def collectPlaylistsFields : List (String × JVal) → List String
  | [] => []
  | (_, v) :: rest => collectPlaylists v ++ collectPlaylistsFields rest

end

mutual

/-- The DFS result is the head of the pre-order collection (value part). -/
theorem ffp_head : ∀ v : JVal, findFirstPlaylist v = (collectPlaylists v).head?
  | .null => by simp [findFirstPlaylist, collectPlaylists]
  | .bool b => by simp [findFirstPlaylist, collectPlaylists]
  | .num n => by simp [findFirstPlaylist, collectPlaylists]
  | .str s => by simp [findFirstPlaylist, collectPlaylists]
  | .arr xs => by
      simp only [findFirstPlaylist, collectPlaylists]
      exact ffpList_head xs
  | .obj fs => by
      simp only [findFirstPlaylist, collectPlaylists]
      cases h : lookupField fs "playlist" with
      | none => simpa using ffpFields_head fs
      | some v =>
          cases v with
          | str s =>
              by_cases hs : s.length > 0 <;> simp [hs, ffpFields_head fs]
          | null => simpa using ffpFields_head fs
          | bool b => simpa using ffpFields_head fs
          | num n => simpa using ffpFields_head fs
          | arr a => simpa using ffpFields_head fs
          | obj o => simpa using ffpFields_head fs

/-- The DFS result is the head of the pre-order collection (array part). -/
theorem ffpList_head :
    ∀ xs : List JVal, findFirstPlaylistList xs = (collectPlaylistsList xs).head?
  | [] => by simp [findFirstPlaylistList, collectPlaylistsList]
  | x :: xs => by
      simp only [findFirstPlaylistList, collectPlaylistsList]
      rw [ffp_head x]
      cases hc : collectPlaylists x with
      | nil => simpa using ffpList_head xs
      | cons a l => simp

/-- The DFS result is the head of the pre-order collection (field part). -/
theorem ffpFields_head :
    ∀ fs : List (String × JVal),
      findFirstPlaylistFields fs = (collectPlaylistsFields fs).head?
  | [] => by simp [findFirstPlaylistFields, collectPlaylistsFields]
  | (k, v) :: fs => by
      simp only [findFirstPlaylistFields, collectPlaylistsFields]
      rw [ffp_head v]
      cases hc : collectPlaylists v with
      | nil => simpa using ffpFields_head fs
      | cons a l => simp

end

example : findFirstPlaylist (.obj [("a", .str "x"),
    ("b", .arr [.obj [("playlist", .str "P")]])]) = some "P" := by decide

/-- JS truthiness of a JSON value (`undefined` is represented by `Option.none`
at the access sites, which is always falsy). -/
def jTruthy : JVal → Bool
  | .null => false
  | .bool b => b
  | .num n => n != 0
  | .str s => s != ""
  | .arr _ => true
  | .obj _ => true

/-- Access `c.id` of a caption entry: the `id` field of an object, `undefined`
otherwise.  (In JS, reading `.id` of `null` throws a TypeError; the trees in
play carry caption objects, and the claims checked here do not depend on that
corner, so the model returns `undefined` there.) -/
def capId : JVal → Option JVal
  | .obj fs => lookupField fs "id"
  | _ => none

/-- JS `Array.isArray(x) ? x : []` applied to a possibly-absent field value. -/
def getCapsArr : Option JVal → List JVal
  | some (.arr xs) => xs
  | _ => []

/-- Membership of a (possibly `undefined`) id in the JS `Set` of existing ids
(`SameValueZero`, which is plain value equality on the JSON ids in play). -/
def idMem (x : Option JVal) : List (Option JVal) → Bool
  | [] => false
  | y :: ys => decide (y = x) || idMem x ys

/-- The guard of `injectCaptionsForHost` at one object node:
`typeof obj.playlist === "string"` and `hostOfItem && hostOfItem === host`,
where `playlistHost` stands for the source's `playlistHost` helper
(`new URL(u).host`, `null` on parse failure; the `&&` makes an empty host
falsy). -/
def matchesHost (playlistHost : String → Option String) (host : String)
    (fields : List (String × JVal)) : Bool :=
  match lookupField fields "playlist" with
  | some (.str s) =>
      match playlistHost s with
      | some h => decide (h ≠ "") && decide (h = host)
      | none => false
  | _ => false

/-- Merge `[...existing, ...captions.filter(c => !existingIds.has(c.id))]`. -/
def mergeCaptions (existing captions : List JVal) : List JVal :=
  existing ++ captions.filter (fun c => !idMem (capId c) (existing.map capId))

/-- The in-place update performed at one matching object node
(`obj.captions = [...existing, ...newOnes]`): an existing `captions` key is
overwritten in place, an absent one is appended at the end of the object. -/
def updCaps (playlistHost : String → Option String) (host : String)
    (captions : List JVal) (fields : List (String × JVal)) : List (String × JVal) :=
  if matchesHost playlistHost host fields then
    setField fields "captions"
      (.arr (mergeCaptions (getCapsArr (lookupField fields "captions")) captions))
  else fields

/-- Source `injectCaptionsForHost` from `server.js` (identical in `app.js`), as a pure
transformation with fuel.  At each object node the `captions` field is first
updated (when the node's `playlist` host matches), and the walk then descends
into every value of the *updated* object — including the freshly appended
caption entries, exactly as the source's `for (const key of Object.keys(obj))`
loop runs after the assignment.  Because the appended entries come from the
`captions` argument rather than from the tree, that walk is not structurally
recursive; `none` is returned exactly when the JS recursion would not
terminate.  (The JS code mutates shared caption references; aliasing is not
representable in a tree, so inputs whose captions contain further matching
playlist nodes — where aliasing could be observed — are the non-terminating
ones.) -/
def injectCaptionsForHost (playlistHost : String → Option String) (host : String)
    (captions : List JVal) : Nat → JVal → Option JVal
  | 0, _ => none
  | n + 1, .arr items =>
      (items.mapM (injectCaptionsForHost playlistHost host captions n)).map JVal.arr
  | n + 1, .obj fields =>
      ((updCaps playlistHost host captions fields).mapM
        (fun kv => (injectCaptionsForHost playlistHost host captions n kv.2).map
          (fun w => (kv.1, w)))).map JVal.obj
  | _ + 1, v => some v

mutual

/-- The tree-mode caption injector as the specification words it (§4.4): walk
the tree exactly as the walker does; at every node whose `playlist` field's
host equals `host`, append the captions whose `id` is not already among the
node's existing caption ids, after the (recursively walked) existing entries;
continue the walk past a match.  This is the refinement target for
`injectCaptionsForHost`. -/
def injectByHostSpec (playlistHost : String → Option String) (host : String)
    (captions : List JVal) : JVal → JVal
  | .arr items => .arr (injectByHostSpecList playlistHost host captions items)
  | .obj fields =>
      let recd := injectByHostSpecFields playlistHost host captions fields
      if matchesHost playlistHost host fields then
        .obj (setField recd "captions"
          (.arr (getCapsArr (lookupField recd "captions") ++
            captions.filter (fun c =>
              !idMem (capId c)
                ((getCapsArr (lookupField fields "captions")).map capId)))))
      else .obj recd
  | v => v

/-- Spec-side walk over array elements. -/
def injectByHostSpecList (playlistHost : String → Option String) (host : String)
    (captions : List JVal) : List JVal → List JVal
  | [] => []
  | x :: xs =>
      injectByHostSpec playlistHost host captions x ::
        injectByHostSpecList playlistHost host captions xs

/-- Spec-side walk over object field values. -/
def injectByHostSpecFields (playlistHost : String → Option String) (host : String)
    (captions : List JVal) : List (String × JVal) → List (String × JVal)
  | [] => []
  | (k, v) :: fs =>
      (k, injectByHostSpec playlistHost host captions v) ::
        injectByHostSpecFields playlistHost host captions fs

end

mutual

/-- Whether some object node in the value has a `playlist` whose host matches
(the nodes at which the injector rewrites `captions`). -/
def hasMatch (playlistHost : String → Option String) (host : String) : JVal → Bool
  | .arr items => hasMatchList playlistHost host items
  | .obj fields =>
      matchesHost playlistHost host fields || hasMatchFields playlistHost host fields
  | _ => false

/-- Walk of `hasMatch` over array elements. -/
def hasMatchList (playlistHost : String → Option String) (host : String) :
    List JVal → Bool
  | [] => false
  | x :: xs => hasMatch playlistHost host x || hasMatchList playlistHost host xs

/-- Walk of `hasMatch` over object field values. -/
def hasMatchFields (playlistHost : String → Option String) (host : String) :
    List (String × JVal) → Bool
  | [] => false
  | (_, v) :: fs =>
      hasMatch playlistHost host v || hasMatchFields playlistHost host fs

end

/-- A concrete URL-host oracle used in the closed witness instances. -/
def hostOfDemo : String → Option String := fun s =>
  if s = "https://cdn.example/master.m3u8" then some "cdn.example"
  else if s = "https://cdn.example/alt.m3u8" then some "cdn.example"
  else if s = "https://other.example/x.m3u8" then some "other.example"
  else none

example :
    injectCaptionsForHost hostOfDemo "cdn.example"
      [.obj [("id", .str "a"), ("url", .str "u")]] 4
      (.obj [("playlist", .str "https://cdn.example/master.m3u8")]) =
    some (.obj [("playlist", .str "https://cdn.example/master.m3u8")
      , ("captions", .arr [.obj [("id", .str "a"), ("url", .str "u")]])]) := by
  decide

/-- Destructuring a successful `Option`-monadic map over a cons cell. -/
theorem optionMapM_cons {α β : Type} (f : α → Option β) (x : α) (xs : List α)
    (r : List β) :
    (x :: xs).mapM f = some r ↔
      ∃ y ys, f x = some y ∧ xs.mapM f = some ys ∧ r = y :: ys := by
  rw [List.mapM_cons]
  show (f x).bind (fun y => (xs.mapM f).bind fun ys => some (y :: ys)) = some r ↔ _
  simp only [Option.bind_eq_some, Option.some.injEq]
  constructor
  · rintro ⟨y, hy, ys, hys, rfl⟩; exact ⟨y, ys, hy, hys, rfl⟩
  · rintro ⟨y, ys, hy, hys, rfl⟩; exact ⟨y, hy, ys, hys, rfl⟩

/-- A successful `Option`-monadic map whose entries are pointwise determined is
the plain map. -/
theorem optionMapM_eq_map {α β : Type} (f : α → Option β) (g : α → β) :
    ∀ (xs : List α) (ys : List β), xs.mapM f = some ys →
      (∀ x ∈ xs, ∀ y, f x = some y → y = g x) → ys = xs.map g
  | [], ys, h, _ => by
      rw [List.mapM_nil] at h
      simpa using (Option.some.inj h).symm
  | x :: xs, ys, h, hp => by
      obtain ⟨y, ys2, hy, hys, rfl⟩ := (optionMapM_cons f x xs ys).mp h
      have h1 : y = g x := hp x (by simp) y hy
      have h2 : ys2 = xs.map g :=
        optionMapM_eq_map f g xs ys2 hys (fun a ha => hp a (by simp [ha]))
      simp [h1, h2]

/-- Pointwise success of a successful `Option`-monadic map. -/
theorem optionMapM_forall {α β : Type} (f : α → Option β) :
    ∀ (xs : List α) (ys : List β), xs.mapM f = some ys →
      ∀ x ∈ xs, ∃ y, f x = some y
  | [], _, _, x, hx => by simp at hx
  | x :: xs, ys, h, a, ha => by
      obtain ⟨y, ys2, hy, hys, rfl⟩ := (optionMapM_cons f x xs ys).mp h
      rcases List.mem_cons.mp ha with rfl | ha2
      · exact ⟨y, hy⟩
      · exact optionMapM_forall f xs ys2 hys a ha2

/-- Mapping a function over object field values commutes with `setField`. -/
theorem setField_map (g : JVal → JVal) :
    ∀ (fs : List (String × JVal)) (k : String) (v : JVal),
      (setField fs k v).map (fun kv => (kv.1, g kv.2)) =
        setField (fs.map (fun kv => (kv.1, g kv.2))) k (g v)
  | [], k, v => by simp [setField]
  | (k1, w) :: fs, k, v => by
      by_cases hk : k1 = k <;> simp [setField, hk, setField_map g fs k v]

/-- Looking a key up after mapping over the field values. -/
theorem lookupField_map (g : JVal → JVal) :
    ∀ (fs : List (String × JVal)) (k : String),
      lookupField (fs.map (fun kv => (kv.1, g kv.2))) k =
        (lookupField fs k).map g
  | [], _ => by simp [lookupField]
  | (k1, w) :: fs, k => by
      by_cases hk : k1 = k <;> simp [lookupField, hk, lookupField_map g fs k]

/-- The spec-side field walk is the pointwise map of the spec-side walk. -/
theorem injectByHostSpecFields_eq_map (H : String → Option String) (host : String)
    (captions : List JVal) :
    ∀ fs, injectByHostSpecFields H host captions fs =
      fs.map (fun kv => (kv.1, injectByHostSpec H host captions kv.2))
  | [] => by simp [injectByHostSpecFields]
  | (k, v) :: fs => by
      simp [injectByHostSpecFields, injectByHostSpecFields_eq_map H host captions fs]

/-- The spec-side list walk is the pointwise map of the spec-side walk. -/
theorem injectByHostSpecList_eq_map (H : String → Option String) (host : String)
    (captions : List JVal) :
    ∀ xs, injectByHostSpecList H host captions xs =
      xs.map (injectByHostSpec H host captions)
  | [] => by simp [injectByHostSpecList]
  | x :: xs => by
      simp [injectByHostSpecList, injectByHostSpecList_eq_map H host captions xs]

/-- Lemma: `getCapsArr` after the spec-side walk of a field value. -/
theorem getCapsArr_map_spec (H : String → Option String) (host : String)
    (captions : List JVal) (o : Option JVal) :
    getCapsArr (o.map (injectByHostSpec H host captions)) =
      injectByHostSpecList H host captions (getCapsArr o) := by
  cases o with
  | none => simp [getCapsArr, injectByHostSpecList]
  | some v =>
      cases v with
      | arr xs => simp [getCapsArr, injectByHostSpec]
      | obj fs =>
          simp only [Option.map_some', injectByHostSpec]
          split <;> simp [getCapsArr, injectByHostSpecList]
      | null => simp [getCapsArr, injectByHostSpec, injectByHostSpecList]
      | bool b => simp [getCapsArr, injectByHostSpec, injectByHostSpecList]
      | num n => simp [getCapsArr, injectByHostSpec, injectByHostSpecList]
      | str s => simp [getCapsArr, injectByHostSpec, injectByHostSpecList]

mutual

/-- The spec-side injector fixes any value containing no matching node. -/
theorem spec_id_of_no_match (H : String → Option String) (host : String)
    (captions : List JVal) :
    ∀ v, hasMatch H host v = false → injectByHostSpec H host captions v = v
  | .null, _ => by simp [injectByHostSpec]
  | .bool b, _ => by simp [injectByHostSpec]
  | .num n, _ => by simp [injectByHostSpec]
  | .str s, _ => by simp [injectByHostSpec]
  | .arr xs, h => by
      simp only [hasMatch] at h
      simp [injectByHostSpec, specList_id_of_no_match H host captions xs h]
  | .obj fs, h => by
      simp only [hasMatch, Bool.or_eq_false_iff] at h
      simp [injectByHostSpec, h.1, specFields_id_of_no_match H host captions fs h.2]

/-- List part of `spec_id_of_no_match`. -/
theorem specList_id_of_no_match (H : String → Option String) (host : String)
    (captions : List JVal) :
    ∀ xs, hasMatchList H host xs = false →
      injectByHostSpecList H host captions xs = xs
  | [], _ => by simp [injectByHostSpecList]
  | x :: xs, h => by
      simp only [hasMatchList, Bool.or_eq_false_iff] at h
      simp [injectByHostSpecList, spec_id_of_no_match H host captions x h.1,
        specList_id_of_no_match H host captions xs h.2]

/-- Field part of `spec_id_of_no_match`. -/
theorem specFields_id_of_no_match (H : String → Option String) (host : String)
    (captions : List JVal) :
    ∀ fs, hasMatchFields H host fs = false →
      injectByHostSpecFields H host captions fs = fs
  | [], _ => by simp [injectByHostSpecFields]
  | (k, v) :: fs, h => by
      simp only [hasMatchFields, Bool.or_eq_false_iff] at h
      simp [injectByHostSpecFields, spec_id_of_no_match H host captions v h.1,
        specFields_id_of_no_match H host captions fs h.2]

end

/-- Captions without matching nodes are fixed elementwise by the spec walk. -/
theorem specList_id_of_caption_list (H : String → Option String) (host : String)
    (captions : List JVal) (l : List JVal)
    (hl : ∀ c ∈ l, hasMatch H host c = false) :
    injectByHostSpecList H host captions l = l := by
  rw [injectByHostSpecList_eq_map]
  rw [List.map_congr_left (fun c hcl => spec_id_of_no_match H host captions c (hl c hcl))]
  exact List.map_id l

/-- Workhorse: on any input where the source walk terminates, and for caption
entries that themselves carry no matching playlist node (non-tree caption
records; aliasing of re-walked shared caption objects is not representable in
a pure tree), the source injector computes exactly the spec-side injector. -/
theorem inject_refines_aux (H : String → Option String) (host : String)
    (captions : List JVal) (hc : ∀ c ∈ captions, hasMatch H host c = false) :
    ∀ n v t, injectCaptionsForHost H host captions n v = some t →
      t = injectByHostSpec H host captions v := by
  intro n
  induction n with
  | zero => intro v t h; simp [injectCaptionsForHost] at h
  | succ n ih =>
      intro v t h
      cases v with
      | null =>
          simp only [injectCaptionsForHost, Option.some.injEq] at h
          simp [injectByHostSpec, ← h]
      | bool b =>
          simp only [injectCaptionsForHost, Option.some.injEq] at h
          simp [injectByHostSpec, ← h]
      | num m =>
          simp only [injectCaptionsForHost, Option.some.injEq] at h
          simp [injectByHostSpec, ← h]
      | str s =>
          simp only [injectCaptionsForHost, Option.some.injEq] at h
          simp [injectByHostSpec, ← h]
      | arr items =>
          simp only [injectCaptionsForHost, Option.map_eq_some'] at h
          obtain ⟨ys, hys, rfl⟩ := h
          have hm := optionMapM_eq_map _ (injectByHostSpec H host captions) items ys
            hys (fun x _ y hy => ih x y hy)
          simp [injectByHostSpec, hm, injectByHostSpecList_eq_map]
      | obj fields =>
          simp only [injectCaptionsForHost, Option.map_eq_some'] at h
          obtain ⟨gs, hgs, rfl⟩ := h
          have hpt : ∀ kv ∈ updCaps H host captions fields, ∀ w,
              (injectCaptionsForHost H host captions n kv.2).map
                (fun w => (kv.1, w)) = some w →
                w = (kv.1, injectByHostSpec H host captions kv.2) := by
            rintro ⟨k, v⟩ _ w hw
            simp only [Option.map_eq_some'] at hw
            obtain ⟨w2, hw2, rfl⟩ := hw
            simp [ih v w2 hw2]
          have hgs2 := optionMapM_eq_map _
            (fun kv => (kv.1, injectByHostSpec H host captions kv.2)) _ gs hgs hpt
          by_cases hmt : matchesHost H host fields
          · rw [updCaps, if_pos hmt, setField_map] at hgs2
            rw [hgs2]
            simp only [injectByHostSpec, hmt, if_pos]
            rw [injectByHostSpecFields_eq_map]
            congr 1
            rw [lookupField_map, getCapsArr_map_spec]
            simp only [mergeCaptions]
            rw [injectByHostSpecList_eq_map, List.map_append,
              ← injectByHostSpecList_eq_map, ← injectByHostSpecList_eq_map]
            rw [specList_id_of_caption_list H host captions _
              (fun c hcf => hc c (List.mem_of_mem_filter hcf))]
          · rw [updCaps, if_neg hmt] at hgs2
            rw [hgs2]
            simp [injectByHostSpec, hmt, injectByHostSpecFields_eq_map]

/-- C1: tree-mode caption injection appends, at every node whose `playlist`
host equals the given host, the given captions minus those whose id already
occurs among the node's existing caption ids, after the existing entries and in
their given order, and keeps walking past a match — i.e. the source injector
computes exactly the spec-side `injectByHostSpec`.  Hypotheses: the source walk
terminates (it re-walks the freshly appended caption objects, so a caption
containing a matching playlist node makes the JS recursion unbounded), and the
caption records carry no matching playlist node (those inputs exercise JS
reference aliasing, which a pure tree cannot represent). -/
theorem injectCaptionsForHost_refines_spec (playlistHost : String → Option String)
    (host : String) (captions : List JVal) (n : Nat) (t t2 : JVal)
    (hc : ∀ c ∈ captions, hasMatch playlistHost host c = false)
    (h : injectCaptionsForHost playlistHost host captions n t = some t2) :
    t2 = injectByHostSpec playlistHost host captions t :=
  inject_refines_aux playlistHost host captions hc n t t2 h

/-- Witness fields: a master playlist node with an existing caption `"a"` and
two nested quality variants, one on the same host, one on another host. -/
def fieldsW1 : List (String × JVal) :=
  [("playlist", .str "https://cdn.example/master.m3u8"),
   ("captions", .arr [.obj [("id", .str "a"), ("language", .str "en")]]),
   ("qualities", .arr
     [.obj [("playlist", .str "https://cdn.example/alt.m3u8")],
      .obj [("playlist", .str "https://other.example/x.m3u8")]])]

/-- Witness tree over `fieldsW1`. -/
def treeW1 : JVal := .obj fieldsW1

/-- Witness captions: one id already present in the tree, one new. -/
def capsW1 : List JVal :=
  [.obj [("id", .str "a"), ("url", .str "u1")],
   .obj [("id", .str "b"), ("url", .str "u2")]]

theorem injectCaptionsForHost_refines_spec_witness :
    injectCaptionsForHost hostOfDemo "cdn.example" capsW1 6 treeW1 =
      some (injectByHostSpec hostOfDemo "cdn.example" capsW1 treeW1) := by
  obtain ⟨r, hr⟩ : ∃ r,
      injectCaptionsForHost hostOfDemo "cdn.example" capsW1 6 treeW1 = some r :=
    ⟨_, rfl⟩
  rw [hr, injectCaptionsForHost_refines_spec hostOfDemo "cdn.example" capsW1 6
    treeW1 r (by decide) hr]

/-- Removing a key from an object (`delete`-like; used only to state the frame
property of the injector). -/
def removeField : List (String × JVal) → String → List (String × JVal)
  | [], _ => []
  | (k, v) :: fs, key =>
      if k = key then removeField fs key else (k, v) :: removeField fs key

theorem lookupField_setField_self (fs : List (String × JVal)) (k : String)
    (v : JVal) : lookupField (setField fs k v) k = some v := by
  induction fs with
  | nil => simp [setField, lookupField]
  | cons kv fs ih =>
      obtain ⟨k1, w⟩ := kv
      by_cases hk : k1 = k <;> simp [setField, lookupField, hk, ih]

theorem lookupField_setField_ne (fs : List (String × JVal)) (k k2 : String)
    (v : JVal) (hne : k2 ≠ k) :
    lookupField (setField fs k v) k2 = lookupField fs k2 := by
  have hkk : ¬ k = k2 := fun h => hne h.symm
  induction fs with
  | nil => simp [setField, lookupField, hkk]
  | cons kv fs ih =>
      obtain ⟨k1, w⟩ := kv
      by_cases hk : k1 = k
      · subst hk
        simp [setField, lookupField, hkk]
      · simp [setField, lookupField, hk, ih]

theorem setField_setField (fs : List (String × JVal)) (k : String) (v w : JVal) :
    setField (setField fs k v) k w = setField fs k w := by
  induction fs with
  | nil => simp [setField]
  | cons kv fs ih =>
      obtain ⟨k1, u⟩ := kv
      by_cases hk : k1 = k <;> simp [setField, hk, ih]

theorem removeField_setField (fs : List (String × JVal)) (k : String) (v : JVal) :
    removeField (setField fs k v) k = removeField fs k := by
  induction fs with
  | nil => simp [setField, removeField]
  | cons kv fs ih =>
      obtain ⟨k1, u⟩ := kv
      by_cases hk : k1 = k <;> simp [setField, removeField, hk, ih]

theorem removeField_map (g : JVal → JVal) (fs : List (String × JVal)) (k : String) :
    removeField (fs.map (fun kv => (kv.1, g kv.2))) k =
      (removeField fs k).map (fun kv => (kv.1, g kv.2)) := by
  induction fs with
  | nil => simp [removeField]
  | cons kv fs ih =>
      obtain ⟨k1, u⟩ := kv
      by_cases hk : k1 = k <;> simp [removeField, hk, ih]

theorem mem_of_mem_removeField (fs : List (String × JVal)) (k : String)
    (kv : String × JVal) (h : kv ∈ removeField fs k) : kv ∈ fs := by
  induction fs with
  | nil => simp [removeField] at h
  | cons kv2 fs ih =>
      obtain ⟨k1, u⟩ := kv2
      by_cases hk : k1 = k
      · simp only [removeField, hk, if_pos rfl] at h
        exact List.mem_cons_of_mem _ (ih h)
      · simp only [removeField, if_neg hk] at h
        rcases List.mem_cons.mp h with rfl | h2
        · simp
        · exact List.mem_cons_of_mem _ (ih h2)

theorem lookupField_mem (fs : List (String × JVal)) (k : String) (v : JVal)
    (h : lookupField fs k = some v) : (k, v) ∈ fs := by
  induction fs with
  | nil => simp [lookupField] at h
  | cons kv fs ih =>
      obtain ⟨k1, w⟩ := kv
      by_cases hk : k1 = k
      · subst hk
        simp only [lookupField] at h
        rw [if_pos trivial] at h
        obtain rfl := Option.some.inj h
        simp
      · simp only [lookupField, if_neg hk] at h
        exact List.mem_cons_of_mem _ (ih h)

theorem idMem_iff (x : Option JVal) : ∀ l, idMem x l = true ↔ x ∈ l
  | [] => by simp [idMem]
  | y :: ys => by
      simp only [idMem, Bool.or_eq_true, decide_eq_true_eq, List.mem_cons,
        idMem_iff x ys]
      tauto

theorem idMem_append (x : Option JVal) (a b : List (Option JVal)) :
    idMem x (a ++ b) = (idMem x a || idMem x b) := by
  induction a with
  | nil => simp [idMem]
  | cons y ys ih => simp [idMem, ih, Bool.or_assoc]

theorem hasMatchFields_forall (H : String → Option String) (host : String) :
    ∀ fs, hasMatchFields H host fs = false →
      ∀ kv ∈ fs, hasMatch H host kv.2 = false
  | [], _, kv, hkv => by simp at hkv
  | (k, v) :: fs, h, kv, hkv => by
      simp only [hasMatchFields, Bool.or_eq_false_iff] at h
      rcases List.mem_cons.mp hkv with rfl | h2
      · exact h.1
      · exact hasMatchFields_forall H host fs h.2 kv h2

/-- The spec walk rewrites only `captions` keys, so `c.id` commutes with it. -/
theorem capId_spec (H : String → Option String) (host : String)
    (captions : List JVal) (v : JVal) :
    capId (injectByHostSpec H host captions v) =
      (capId v).map (injectByHostSpec H host captions) := by
  cases v with
  | obj fs =>
      simp only [injectByHostSpec]
      split
      · simp only [capId]
        rw [lookupField_setField_ne _ _ _ _ (by decide),
          injectByHostSpecFields_eq_map, lookupField_map]
      · simp only [capId]
        rw [injectByHostSpecFields_eq_map, lookupField_map]
  | null => simp [injectByHostSpec, capId]
  | bool b => simp [injectByHostSpec, capId]
  | num n => simp [injectByHostSpec, capId]
  | str s => simp [injectByHostSpec, capId]
  | arr xs => simp [injectByHostSpec, capId]

/-- The spec walk never changes whether a field list matches the host: the
`playlist` value, when a string, is preserved verbatim. -/
theorem matchesHost_map_spec (H : String → Option String) (host : String)
    (captions : List JVal) (fs : List (String × JVal)) :
    matchesHost H host (fs.map (fun kv => (kv.1, injectByHostSpec H host captions kv.2))) =
      matchesHost H host fs := by
  simp only [matchesHost, lookupField_map]
  cases hpl : lookupField fs "playlist" with
  | none => simp
  | some v =>
      cases v with
      | str s => simp [injectByHostSpec]
      | null => simp [injectByHostSpec]
      | bool b => simp [injectByHostSpec]
      | num n => simp [injectByHostSpec]
      | arr xs => simp [injectByHostSpec]
      | obj gs =>
          simp only [Option.map_some', injectByHostSpec]
          by_cases hg : matchesHost H host gs
          · rw [if_pos hg]
          · rw [if_neg hg]

theorem matchesHost_setField_captions (H : String → Option String) (host : String)
    (fs : List (String × JVal)) (v : JVal) :
    matchesHost H host (setField fs "captions" v) = matchesHost H host fs := by
  simp only [matchesHost]
  rw [lookupField_setField_ne _ _ _ _ (by decide)]

/-- If a caption record has no matching node, the spec walk fixes the value of
its `id` field. -/
theorem capId_map_spec_of_no_match (H : String → Option String) (host : String)
    (captions : List JVal) (c : JVal) (hcm : hasMatch H host c = false) :
    (capId c).map (injectByHostSpec H host captions) = capId c := by
  cases hcw : capId c with
  | none => simp
  | some w =>
      have hcobj : ∃ cfs, c = .obj cfs ∧ lookupField cfs "id" = some w := by
        cases c <;> simp_all [capId]
      obtain ⟨cfs, rfl, hlk⟩ := hcobj
      simp only [hasMatch, Bool.or_eq_false_iff] at hcm
      have hw : hasMatch H host w = false :=
        hasMatchFields_forall H host cfs hcm.2 ("id", w) (lookupField_mem cfs "id" w hlk)
      simp [spec_id_of_no_match H host captions w hw]

/-- One application of the spec-side injector covers every caption id at a
matching node, so a second application appends nothing. -/
theorem spec_covering (H : String → Option String) (host : String)
    (captions : List JVal) (hc : ∀ c ∈ captions, hasMatch H host c = false)
    (existing : List JVal) (c : JVal) (hcmem : c ∈ captions) :
    idMem (capId c)
      ((injectByHostSpecList H host captions existing ++
        captions.filter (fun x => !idMem (capId x) (existing.map capId))).map capId) =
      true := by
  rw [List.map_append, idMem_append]
  by_cases hid : idMem (capId c) (existing.map capId) = true
  · apply Bool.or_eq_true_iff.mpr
    left
    rw [idMem_iff] at hid ⊢
    obtain ⟨e, hemem, heid⟩ := List.mem_map.mp hid
    apply List.mem_map.mpr
    refine ⟨injectByHostSpec H host captions e, ?_, ?_⟩
    · rw [injectByHostSpecList_eq_map]
      exact List.mem_map.mpr ⟨e, hemem, rfl⟩
    · rw [capId_spec, heid, capId_map_spec_of_no_match H host captions c (hc c hcmem)]
  · apply Bool.or_eq_true_iff.mpr
    right
    rw [idMem_iff]
    apply List.mem_map.mpr
    refine ⟨c, ?_, rfl⟩
    rw [List.mem_filter]
    exact ⟨hcmem, by simp [hid]⟩

/-- The spec-side walk of field lists distributes over `setField`. -/
theorem specFields_setField (H : String → Option String) (host : String)
    (captions : List JVal) (fs : List (String × JVal)) (k : String) (v : JVal) :
    injectByHostSpecFields H host captions (setField fs k v) =
      setField (injectByHostSpecFields H host captions fs) k
        (injectByHostSpec H host captions v) := by
  rw [injectByHostSpecFields_eq_map, setField_map, ← injectByHostSpecFields_eq_map]

/-- The spec-side walk of lists distributes over append. -/
theorem specList_append (H : String → Option String) (host : String)
    (captions : List JVal) (xs ys : List JVal) :
    injectByHostSpecList H host captions (xs ++ ys) =
      injectByHostSpecList H host captions xs ++
        injectByHostSpecList H host captions ys := by
  rw [injectByHostSpecList_eq_map, injectByHostSpecList_eq_map,
    injectByHostSpecList_eq_map, List.map_append]

/-- Lemma: `matchesHost` is invariant under the spec-side field walk. -/
theorem matchesHost_specFields (H : String → Option String) (host : String)
    (captions : List JVal) (fs : List (String × JVal)) :
    matchesHost H host (injectByHostSpecFields H host captions fs) =
      matchesHost H host fs := by
  rw [injectByHostSpecFields_eq_map, matchesHost_map_spec]

/-- The existing-captions array seen after the spec-side field walk. -/
theorem getCapsArr_specFields (H : String → Option String) (host : String)
    (captions : List JVal) (fs : List (String × JVal)) (k : String) :
    getCapsArr (lookupField (injectByHostSpecFields H host captions fs) k) =
      injectByHostSpecList H host captions (getCapsArr (lookupField fs k)) := by
  rw [injectByHostSpecFields_eq_map, lookupField_map, getCapsArr_map_spec]

/-- Pointwise idempotence of field values lifts to the field walk. -/
theorem specFields_idem_of_pointwise (H : String → Option String) (host : String)
    (captions : List JVal) (fs : List (String × JVal))
    (hfs : ∀ kv ∈ fs, injectByHostSpec H host captions
      (injectByHostSpec H host captions kv.2) = injectByHostSpec H host captions kv.2) :
    injectByHostSpecFields H host captions (injectByHostSpecFields H host captions fs) =
      injectByHostSpecFields H host captions fs := by
  rw [injectByHostSpecFields_eq_map, injectByHostSpecFields_eq_map, List.map_map]
  exact List.map_congr_left (fun kv hkv => by
    simp only [Function.comp]
    rw [hfs kv hkv])

/-- Pointwise idempotence at the `captions` field lifts to the existing array. -/
theorem specList_existing_idem (H : String → Option String) (host : String)
    (captions : List JVal) (fs : List (String × JVal))
    (hfs : ∀ kv ∈ fs, injectByHostSpec H host captions
      (injectByHostSpec H host captions kv.2) = injectByHostSpec H host captions kv.2) :
    injectByHostSpecList H host captions
      (injectByHostSpecList H host captions (getCapsArr (lookupField fs "captions"))) =
      injectByHostSpecList H host captions (getCapsArr (lookupField fs "captions")) := by
  cases hcap : lookupField fs "captions" with
  | none => simp [getCapsArr, injectByHostSpecList]
  | some v =>
      cases v with
      | arr xs =>
          simp only [getCapsArr]
          have hx := hfs ("captions", .arr xs) (lookupField_mem fs "captions" _ hcap)
          simp only [injectByHostSpec, JVal.arr.injEq] at hx
          exact hx
      | null => simp [getCapsArr, injectByHostSpecList]
      | bool b => simp [getCapsArr, injectByHostSpecList]
      | num n => simp [getCapsArr, injectByHostSpecList]
      | str s => simp [getCapsArr, injectByHostSpecList]
      | obj o => simp [getCapsArr, injectByHostSpecList]

/-- The spec-side injector is idempotent when the caption records themselves
carry no matching playlist node. -/
theorem spec_idem (H : String → Option String) (host : String) (captions : List JVal)
    (hc : ∀ c ∈ captions, hasMatch H host c = false) :
    ∀ v, injectByHostSpec H host captions (injectByHostSpec H host captions v) =
      injectByHostSpec H host captions v := by
  have M : JValMotives
      (fun v => injectByHostSpec H host captions (injectByHostSpec H host captions v) =
        injectByHostSpec H host captions v)
      (fun xs => ∀ x ∈ xs,
        injectByHostSpec H host captions (injectByHostSpec H host captions x) =
          injectByHostSpec H host captions x)
      (fun fs => ∀ kv ∈ fs,
        injectByHostSpec H host captions (injectByHostSpec H host captions kv.2) =
          injectByHostSpec H host captions kv.2) := by
    refine ⟨?_, ?_, ?_, ?_, ?_, ?_, ?_, ?_, ?_, ?_⟩
    · simp [injectByHostSpec]
    · intro b; simp [injectByHostSpec]
    · intro n; simp [injectByHostSpec]
    · intro s; simp [injectByHostSpec]
    · intro xs hxs
      simp only [injectByHostSpec, JVal.arr.injEq]
      rw [injectByHostSpecList_eq_map, injectByHostSpecList_eq_map, List.map_map]
      exact List.map_congr_left (fun x hx => hxs x hx)
    · intro fs hfs
      by_cases hm : matchesHost H host fs
      · have h1 : injectByHostSpec H host captions (.obj fs) =
            .obj (setField (injectByHostSpecFields H host captions fs) "captions"
              (.arr (injectByHostSpecList H host captions
                  (getCapsArr (lookupField fs "captions")) ++
                captions.filter (fun c => !idMem (capId c)
                  ((getCapsArr (lookupField fs "captions")).map capId))))) := by
          rw [injectByHostSpec, if_pos hm, getCapsArr_specFields]
        rw [h1]
        -- name the once-injected captions array and field list
        generalize hA : injectByHostSpecList H host captions
            (getCapsArr (lookupField fs "captions")) ++
          captions.filter (fun c => !idMem (capId c)
            ((getCapsArr (lookupField fs "captions")).map capId)) = A at *
        rw [injectByHostSpec]
        rw [matchesHost_setField_captions, matchesHost_specFields, if_pos hm]
        rw [specFields_setField, specFields_idem_of_pointwise H host captions fs hfs]
        rw [lookupField_setField_self, lookupField_setField_self]
        have hAfix : injectByHostSpecList H host captions A = A := by
          rw [← hA, specList_append, specList_existing_idem H host captions fs hfs,
            specList_id_of_caption_list H host captions _
              (fun c hcf => hc c (List.mem_of_mem_filter hcf))]
        have hAcover : captions.filter
            (fun c => !idMem (capId c) ((getCapsArr (some (JVal.arr A))).map capId)) = [] := by
          apply List.filter_eq_nil_iff.mpr
          intro c hcm
          simp only [Bool.not_eq_true', Bool.not_eq_false]
          simp only [getCapsArr]
          rw [← hA]
          exact spec_covering H host captions hc _ c hcm
        rw [hAcover, List.append_nil, setField_setField]
        simp only [injectByHostSpec, JVal.obj.injEq, getCapsArr]
        rw [hAfix]
      · have h1 : injectByHostSpec H host captions (.obj fs) =
            .obj (injectByHostSpecFields H host captions fs) := by
          rw [injectByHostSpec, if_neg hm]
        rw [h1, injectByHostSpec, matchesHost_specFields, if_neg hm,
          specFields_idem_of_pointwise H host captions fs hfs]
    · intro x hx; simp at hx
    · intro x xs hx hxs y hy
      rcases List.mem_cons.mp hy with rfl | h2
      · exact hx
      · exact hxs y h2
    · intro kv hkv; simp at hkv
    · intro k v fs hv hfs kv hkv
      rcases List.mem_cons.mp hkv with rfl | h2
      · exact hv
      · exact hfs kv h2
  exact jval_ind M

/-- C3: injecting the same captions for the same host twice produces the same
tree as injecting them once — the second run adds nothing.  Same hypotheses as
the refinement theorem: both source walks terminate, and the caption records
carry no matching playlist node. -/
theorem injectCaptionsForHost_idempotent (playlistHost : String → Option String)
    (host : String) (captions : List JVal) (n m : Nat) (t t1 t2 : JVal)
    (hc : ∀ c ∈ captions, hasMatch playlistHost host c = false)
    (h1 : injectCaptionsForHost playlistHost host captions n t = some t1)
    (h2 : injectCaptionsForHost playlistHost host captions m t1 = some t2) :
    t2 = t1 := by
  have e1 := inject_refines_aux playlistHost host captions hc n t t1 h1
  have e2 := inject_refines_aux playlistHost host captions hc m t1 t2 h2
  rw [e2, e1]
  exact spec_idem playlistHost host captions hc t

/-- The result of the witness injection, computed once and reused to witness
idempotence and the frame property. -/
def treeW1once : JVal := .obj
  [("playlist", .str "https://cdn.example/master.m3u8"),
   ("captions", .arr
     [.obj [("id", .str "a"), ("language", .str "en")],
      .obj [("id", .str "b"), ("url", .str "u2")]]),
   ("qualities", .arr
     [.obj
        [("playlist", .str "https://cdn.example/alt.m3u8"),
         ("captions", .arr
           [.obj [("id", .str "a"), ("url", .str "u1")],
            .obj [("id", .str "b"), ("url", .str "u2")]])],
      .obj [("playlist", .str "https://other.example/x.m3u8")]])]

theorem injectCaptionsForHost_idempotent_witness :
    injectCaptionsForHost hostOfDemo "cdn.example" capsW1 6 treeW1once =
      some treeW1once := by
  have h1 : injectCaptionsForHost hostOfDemo "cdn.example" capsW1 6 treeW1 =
      some treeW1once := by decide
  obtain ⟨r2, hr2⟩ : ∃ r,
      injectCaptionsForHost hostOfDemo "cdn.example" capsW1 6 treeW1once = some r :=
    ⟨_, rfl⟩
  rw [hr2, injectCaptionsForHost_idempotent hostOfDemo "cdn.example" capsW1 6 6
    treeW1 treeW1once r2 (by decide) h1 hr2]

mutual

/-- Erase the `captions` field at every object node whose `playlist` host
matches, and keep everything else: two trees with equal images under this map
differ at most in the captions of matching nodes. -/
def stripMatchedCaps (H : String → Option String) (host : String) : JVal → JVal
  | .arr items => .arr (stripMatchedCapsList H host items)
  | .obj fields =>
      if matchesHost H host fields then
        .obj (removeField (stripMatchedCapsFields H host fields) "captions")
      else .obj (stripMatchedCapsFields H host fields)
  | v => v

/-- Walk of `stripMatchedCaps` over array elements. -/
def stripMatchedCapsList (H : String → Option String) (host : String) :
    List JVal → List JVal
  | [] => []
  | x :: xs => stripMatchedCaps H host x :: stripMatchedCapsList H host xs

/-- Walk of `stripMatchedCaps` over object field values. -/
def stripMatchedCapsFields (H : String → Option String) (host : String) :
    List (String × JVal) → List (String × JVal)
  | [] => []
  | (k, v) :: fs => (k, stripMatchedCaps H host v) :: stripMatchedCapsFields H host fs

end

theorem stripMatchedCapsFields_eq_map (H : String → Option String) (host : String) :
    ∀ fs, stripMatchedCapsFields H host fs =
      fs.map (fun kv => (kv.1, stripMatchedCaps H host kv.2))
  | [] => by simp [stripMatchedCapsFields]
  | (k, v) :: fs => by
      simp [stripMatchedCapsFields, stripMatchedCapsFields_eq_map H host fs]

theorem stripMatchedCapsList_eq_map (H : String → Option String) (host : String) :
    ∀ xs, stripMatchedCapsList H host xs = xs.map (stripMatchedCaps H host)
  | [] => by simp [stripMatchedCapsList]
  | x :: xs => by
      simp [stripMatchedCapsList, stripMatchedCapsList_eq_map H host xs]

/-- The strip walk of field lists distributes over `setField`. -/
theorem stripFields_setField (H : String → Option String) (host : String)
    (fs : List (String × JVal)) (k : String) (v : JVal) :
    stripMatchedCapsFields H host (setField fs k v) =
      setField (stripMatchedCapsFields H host fs) k (stripMatchedCaps H host v) := by
  rw [stripMatchedCapsFields_eq_map, setField_map, ← stripMatchedCapsFields_eq_map]

/-- Pointwise strip-equality lifts through a spec-walked field list. -/
theorem stripFields_map_spec (H : String → Option String) (host : String)
    (captions : List JVal) (fs : List (String × JVal))
    (hfs : ∀ kv ∈ fs, stripMatchedCaps H host (injectByHostSpec H host captions kv.2) =
      stripMatchedCaps H host kv.2) :
    stripMatchedCapsFields H host
        (fs.map (fun kv => (kv.1, injectByHostSpec H host captions kv.2))) =
      stripMatchedCapsFields H host fs := by
  rw [stripMatchedCapsFields_eq_map, stripMatchedCapsFields_eq_map, List.map_map]
  exact List.map_congr_left (fun kv hkv => by
    simp only [Function.comp]
    rw [hfs kv hkv])

/-- The spec-side injector changes nothing outside the `captions` fields of
matching nodes. -/
theorem strip_spec (H : String → Option String) (host : String) (captions : List JVal) :
    ∀ v, stripMatchedCaps H host (injectByHostSpec H host captions v) =
      stripMatchedCaps H host v := by
  have M : JValMotives
      (fun v => stripMatchedCaps H host (injectByHostSpec H host captions v) =
        stripMatchedCaps H host v)
      (fun xs => ∀ x ∈ xs, stripMatchedCaps H host (injectByHostSpec H host captions x) =
        stripMatchedCaps H host x)
      (fun fs => ∀ kv ∈ fs, stripMatchedCaps H host (injectByHostSpec H host captions kv.2) =
        stripMatchedCaps H host kv.2) := by
    refine ⟨?_, ?_, ?_, ?_, ?_, ?_, ?_, ?_, ?_, ?_⟩
    · simp [injectByHostSpec]
    · intro b; simp [injectByHostSpec]
    · intro n; simp [injectByHostSpec]
    · intro s; simp [injectByHostSpec]
    · intro xs hxs
      simp only [injectByHostSpec, stripMatchedCaps, JVal.arr.injEq]
      rw [injectByHostSpecList_eq_map, stripMatchedCapsList_eq_map,
        stripMatchedCapsList_eq_map, List.map_map]
      exact List.map_congr_left (fun x hx => hxs x hx)
    · intro fs hfs
      by_cases hm : matchesHost H host fs
      · have h1 : injectByHostSpec H host captions (.obj fs) =
            .obj (setField (injectByHostSpecFields H host captions fs) "captions"
              (.arr (injectByHostSpecList H host captions
                  (getCapsArr (lookupField fs "captions")) ++
                captions.filter (fun c => !idMem (capId c)
                  ((getCapsArr (lookupField fs "captions")).map capId))))) := by
          rw [injectByHostSpec, if_pos hm, getCapsArr_specFields]
        rw [h1]
        rw [stripMatchedCaps, stripMatchedCaps]
        rw [matchesHost_setField_captions, matchesHost_specFields, if_pos hm, if_pos hm]
        rw [stripFields_setField, removeField_setField, injectByHostSpecFields_eq_map,
          stripFields_map_spec H host captions fs hfs]
      · have h1 : injectByHostSpec H host captions (.obj fs) =
            .obj (injectByHostSpecFields H host captions fs) := by
          rw [injectByHostSpec, if_neg hm]
        rw [h1, stripMatchedCaps, stripMatchedCaps]
        rw [matchesHost_specFields, if_neg hm, if_neg hm]
        rw [injectByHostSpecFields_eq_map, stripFields_map_spec H host captions fs hfs]
    · intro x hx; simp at hx
    · intro x xs hx hxs y hy
      rcases List.mem_cons.mp hy with rfl | h2
      · exact hx
      · exact hxs y h2
    · intro kv hkv; simp at hkv
    · intro k v fs hv hfs kv hkv
      rcases List.mem_cons.mp hkv with rfl | h2
      · exact hv
      · exact hfs kv h2
  exact jval_ind M

/-- C9: the injector mutates only the `captions` field of object nodes whose
`playlist` host equals the given host; every other field of every node, and
every node whose playlist is absent, unparsable or on a different host, is left
unchanged — stated as equality of both trees after erasing exactly the captions
of matching nodes.  Hypotheses as in the refinement theorem. -/
theorem injectCaptionsForHost_frame (playlistHost : String → Option String)
    (host : String) (captions : List JVal) (n : Nat) (t t2 : JVal)
    (hc : ∀ c ∈ captions, hasMatch playlistHost host c = false)
    (h : injectCaptionsForHost playlistHost host captions n t = some t2) :
    stripMatchedCaps playlistHost host t2 = stripMatchedCaps playlistHost host t := by
  rw [inject_refines_aux playlistHost host captions hc n t t2 h]
  exact strip_spec playlistHost host captions t

theorem injectCaptionsForHost_frame_witness :
    stripMatchedCaps hostOfDemo "cdn.example" treeW1once =
      stripMatchedCaps hostOfDemo "cdn.example" treeW1 :=
  injectCaptionsForHost_frame hostOfDemo "cdn.example" capsW1 6 treeW1 treeW1once
    (by decide) (by decide)

/-- Source `injectCaptionsIntoStream` from `server.js`: merge captions into a single
stream record's own top-level `captions` field when a playlist is found
anywhere in it and its host parses to a truthy value.  JS notes: `null` and
non-objects are returned untouched (`!stream || typeof stream !== "object"`);
for a bare array (also `typeof "object"` in JS) the assignment would attach a
non-index property invisible to JSON serialization, so the model leaves arrays
unchanged; `captions || []` is the `captions` argument itself here since the
model always passes a list. -/
def injectCaptionsIntoStream (playlistHost : String → Option String)
    (stream : JVal) (captions : List JVal) : JVal :=
  match stream with
  | .obj fields =>
      match findFirstPlaylist (.obj fields) with
      | none => .obj fields
      | some p =>
          match playlistHost p with
          | none => .obj fields
          | some h =>
              if h = "" then .obj fields
              else .obj (setField fields "captions"
                (.arr (mergeCaptions (getCapsArr (lookupField fields "captions"))
                  captions)))
  | v => v

/-- C10: single-stream injection leaves the stream completely unchanged when no
playlist is found in it and also when the found playlist's URL yields no
(truthy) host; it merges the captions into the stream's own top-level
`captions` field exactly when a playlist is found — however deeply nested — and
its host parses. -/
theorem injectCaptionsIntoStream_cases (playlistHost : String → Option String)
    (stream : JVal) (captions : List JVal) :
    (findFirstPlaylist stream = none →
      injectCaptionsIntoStream playlistHost stream captions = stream) ∧
    (∀ p, findFirstPlaylist stream = some p → playlistHost p = none →
      injectCaptionsIntoStream playlistHost stream captions = stream) ∧
    (∀ p h fields, stream = .obj fields → findFirstPlaylist stream = some p →
      playlistHost p = some h → h ≠ "" →
      injectCaptionsIntoStream playlistHost stream captions =
        .obj (setField fields "captions"
          (.arr (mergeCaptions (getCapsArr (lookupField fields "captions"))
            captions)))) := by
  refine ⟨?_, ?_, ?_⟩
  · intro hn
    cases stream <;> simp_all [injectCaptionsIntoStream]
  · intro p hp hh
    cases stream <;> simp_all [injectCaptionsIntoStream]
  · rintro p h fields rfl hp hh hne
    simp_all [injectCaptionsIntoStream]

theorem injectCaptionsIntoStream_cases_witness :
    injectCaptionsIntoStream hostOfDemo treeW1 capsW1 =
      .obj (setField fieldsW1 "captions"
        (.arr (mergeCaptions (getCapsArr (lookupField fieldsW1 "captions"))
          capsW1))) :=
  (injectCaptionsIntoStream_cases hostOfDemo treeW1 capsW1).2.2
    "https://cdn.example/master.m3u8" "cdn.example" fieldsW1 rfl (by decide)
    (by decide) (by decide)

/-- C2: `findFirstPlaylist` performs the deterministic pre-order depth-first
search: it returns the head of the pre-order collection of non-empty string
`playlist` values — the first such value in encounter order — and `none`
exactly when no node anywhere carries one (the collection is then empty). -/
theorem findFirstPlaylist_preorder (t : JVal) :
    findFirstPlaylist t = (collectPlaylists t).head? :=
  ffp_head t

/-! ### Media resolver (`mediaFromTv`) -/

/-- The fields of the TMDB `/tv/{id}` payload that `mediaFromTv` reads; the
TMDB contract yields strings or null/absent in these positions. -/
structure TvShow where
  name : Option String
  original_name : Option String
  first_air_date : Option String
  imdb_id : Option String
deriving Repr, DecidableEq

/-- An entry of the season payload's `episodes` array. -/
structure TvEpisode where
  episode_number : Int
  id : Int
  name : Option String
  imdb_id : Option String
deriving Repr, DecidableEq

/-- The fields of the TMDB `/tv/{id}/season/{n}` payload that the code reads
(`episodes` may be absent: the code uses `s.episodes?.find`). -/
structure TvSeason where
  id : Int
  name : Option String
  episodes : Option (List TvEpisode)
deriving Repr, DecidableEq

/-- A TMDB `external_ids` payload. -/
structure ExternalIds where
  imdb_id : Option String
deriving Repr, DecidableEq

/-- The upstream responses consumed by one `mediaFromTv` run, one per
`tmdbGet` call; `Except.error` is a thrown/network failure. -/
structure TvEnv where
  tvResp : Except String TvShow
  seasonResp : Except String TvSeason
  showExtResp : Except String ExternalIds
  episodeExtResp : Except String ExternalIds

/-- Chain `a || b || ... || ""` over JS strings, where `undefined`/null/empty are
falsy. -/
def firstTruthyStr : List (Option String) → String
  | [] => ""
  | some s :: rest => if s = "" then firstTruthyStr rest else s
  | none :: rest => firstTruthyStr rest

/-- Chain `a || b || ... || undefined` over JS strings (the `imdbId` chain). -/
def firstTruthyOpt : List (Option String) → Option String
  | [] => none
  | some s :: rest => if s = "" then firstTruthyOpt rest else some s
  | none :: rest => firstTruthyOpt rest

/-- JS `parseInt(s, 10)`: skip leading ASCII whitespace, optional sign, then the
longest run of decimal digits; NaN (`none`) when that run is empty. -/
def parseIntJS (s : String) : Option Int :=
  let cs := s.data.dropWhile (fun c => c = ' ' || c = '\t' || c = '\n' || c = '\r')
  let signed : Int × List Char :=
    match cs with
    | '-' :: rest => (-1, rest)
    | '+' :: rest => (1, rest)
    | _ => (1, cs)
  let digits := signed.2.takeWhile Char.isDigit
  if digits.isEmpty then none
  else some (signed.1 * digits.foldl
    (fun acc c => acc * 10 + ((c.toNat : Int) - ('0'.toNat : Int))) 0)

/-- Year `parseInt((first_air_date || "").slice(0, 4) || "0", 10)`. -/
def releaseYearOf (fad : Option String) : Option Int :=
  let d := firstTruthyStr [fad]
  let sliced := d.take 4
  parseIntJS (if sliced = "" then "0" else sliced)

/-- JS truthiness of the parsed year (`!releaseYear`: NaN and 0 are falsy). -/
def numTruthy : Option Int → Bool
  | some n => n != 0
  | none => false

/-- Check `Number.isFinite(x) && x > 0`.  The argument is the result of the platform
conversion `Number(param)`, with `none` standing for any non-finite result
(NaN or ±Infinity — the check treats them identically). -/
def jsFinitePos : Option ℚ → Bool
  | some q => decide (0 < q)
  | none => false

/-- Lookup `s.episodes?.find((x) => x.episode_number === episodeNumber)`. -/
def epFind (episodes : Option (List TvEpisode)) (en : Option ℚ) : Option TvEpisode :=
  match episodes with
  | none => none
  | some eps => eps.find? (fun x => decide (some ((x.episode_number : ℚ)) = en))

/-- The show descriptor `mediaFromTv` returns (season/episode records
flattened into fields). -/
structure ShowMedia where
  type : String
  title : String
  releaseYear : Int
  tmdbId : String
  imdbId : Option String
  seasonNumber : ℚ
  seasonTmdbId : String
  seasonTitle : String
  episodeNumber : ℚ
  episodeTmdbId : String
  episodeTitle : String
deriving Repr, DecidableEq

/-- Source `mediaFromTv` from `server.js` (identical in `app.js`).  `toNumber` stands
for the platform conversion `Number(..)` applied to the route strings (`none`
= not finite); each `tmdbGet` appears as a field of `env`; the two
`external_ids` fetches are best-effort (`toOption` is the `try`/`catch null`).
After the metadata check the parsed year is a truthy integer, extracted with
`getD 0`. -/
def mediaFromTv (toNumber : String → Option ℚ) (env : TvEnv) (id : String)
    (season episode : String) : Except String ShowMedia :=
  match env.tvResp with
  | .error err => .error err
  | .ok tv =>
    let title := firstTruthyStr [tv.name, tv.original_name]
    let releaseYear := releaseYearOf tv.first_air_date
    if title = "" || !numTruthy releaseYear then
      .error "TMDB show metadata incomplete"
    else
      let seasonNumber := toNumber season
      let episodeNumber := toNumber episode
      if !jsFinitePos seasonNumber then .error "Invalid season"
      else if !jsFinitePos episodeNumber then .error "Invalid episode"
      else
        match env.seasonResp with
        | .error err => .error err
        | .ok s =>
          match epFind s.episodes episodeNumber with
          | none => .error ("Episode " ++ episode ++ " not found in season " ++ season)
          | some e =>
            let showExternalIds := env.showExtResp.toOption
            let episodeExternalIds := env.episodeExtResp.toOption
            let imdbId := firstTruthyOpt
              [episodeExternalIds.bind (·.imdb_id), showExternalIds.bind (·.imdb_id),
               e.imdb_id, tv.imdb_id]
            .ok
              { type := "show"
                title := title
                releaseYear := releaseYear.getD 0
                tmdbId := id
                imdbId := imdbId
                seasonNumber := seasonNumber.getD 0
                seasonTmdbId := toString s.id
                seasonTitle := firstTruthyStr [s.name]
                episodeNumber := episodeNumber.getD 0
                episodeTmdbId := toString e.id
                episodeTitle := firstTruthyStr [e.name] }

/-- The resolver outcome with the cross-reference id erased (used to state that
the external-id fetch outcomes influence nothing else). -/
def maskImdb (r : Except String ShowMedia) : Except String ShowMedia :=
  r.map (fun m => { m with imdbId := none })

/-- C4: the cross-reference id of the returned show descriptor is the first
non-empty value among the episode-level external-id record, the show-level
external-id record, the found episode's own `imdb_id` and the show's own
`imdb_id` (undefined when all are absent or empty); and the outcomes of the
two best-effort external-id fetches — including outright failures — influence
neither whether resolution succeeds nor any other field of the result. -/
theorem mediaFromTv_imdbId_precedence :
    (∀ (toNumber : String → Option ℚ) (env : TvEnv)
        (a b a2 b2 : Except String ExternalIds) (id season episode : String),
      maskImdb (mediaFromTv toNumber
          { env with showExtResp := a, episodeExtResp := b } id season episode) =
        maskImdb (mediaFromTv toNumber
          { env with showExtResp := a2, episodeExtResp := b2 } id season episode)) ∧
    (∀ (toNumber : String → Option ℚ) (env : TvEnv) (id season episode : String)
        (tv : TvShow) (s : TvSeason) (e : TvEpisode) (m : ShowMedia),
      env.tvResp = .ok tv → env.seasonResp = .ok s →
      epFind s.episodes (toNumber episode) = some e →
      mediaFromTv toNumber env id season episode = .ok m →
      m.imdbId = firstTruthyOpt
        [(env.episodeExtResp.toOption).bind (·.imdb_id),
         (env.showExtResp.toOption).bind (·.imdb_id), e.imdb_id, tv.imdb_id]) := by
  constructor
  · intro toNumber env a b a2 b2 id season episode
    simp only [mediaFromTv]
    cases env.tvResp with
    | error err => rfl
    | ok tv =>
        simp only
        split
        · rfl
        · split
          · rfl
          · split
            · rfl
            · cases env.seasonResp with
              | error err => rfl
              | ok s =>
                  simp only
                  cases epFind s.episodes (toNumber episode) with
                  | none => rfl
                  | some e => rfl
  · intro toNumber env id season episode tv s e m htv hs hep h
    rw [mediaFromTv, htv] at h
    simp only at h
    by_cases h1 : (firstTruthyStr [tv.name, tv.original_name] = "" ||
        !numTruthy (releaseYearOf tv.first_air_date)) = true
    · rw [if_pos h1] at h
      exact absurd h (by simp)
    · rw [if_neg h1] at h
      by_cases h2 : (!jsFinitePos (toNumber season)) = true
      · rw [if_pos h2] at h
        exact absurd h (by simp)
      · rw [if_neg h2] at h
        by_cases h3 : (!jsFinitePos (toNumber episode)) = true
        · rw [if_pos h3] at h
          exact absurd h (by simp)
        · rw [if_neg h3, hs] at h
          simp only [hep] at h
          obtain rfl := Except.ok.inj h
          rfl

/-- A TMDB show payload with an empty title (metadata incomplete). -/
def tvIncompleteW : TvShow :=
  { name := some "", original_name := none,
    first_air_date := some "1999-03-31", imdb_id := none }

/-- A complete TMDB show payload for the witnesses. -/
def tvCompleteW : TvShow :=
  { name := some "Some Show", original_name := none,
    first_air_date := some "1999-03-31", imdb_id := some "tt2" }

/-- Environment for the C6 counterexample: the show fetch succeeds but the
metadata is incomplete; the season fetch would fail; external-id fetches fail. -/
def envC6 : TvEnv :=
  { tvResp := .ok tvIncompleteW, seasonResp := .error "season fetch failed",
    showExtResp := .error "ext", episodeExtResp := .error "ext" }

/-- The platform `Number(..)` conversion on the concrete strings the witnesses
use. -/
def toNumberDemo : String → Option ℚ := fun s =>
  if s = "1" then some 1
  else if s = "-1" then some (-1)
  else if s = "2" then some 2
  else none

/-- C6 counterexample: a show lookup whose season is invalid (negative) fails
with the metadata-incompleteness error, not `InvalidParameter`, because the
title/year check precedes the season/episode validation. -/
theorem mediaFromTv_invalid_param_cex :
    jsFinitePos (toNumberDemo "-1") = false ∧
    mediaFromTv toNumberDemo envC6 "7" "-1" "1" =
      .error "TMDB show metadata incomplete" ∧
    "TMDB show metadata incomplete" ≠ "Invalid season" ∧
    "TMDB show metadata incomplete" ≠ "Invalid episode" :=
  ⟨rfl, rfl, by decide, by decide⟩

/-- C6 (amended): when the show fetch succeeds and its metadata is complete, a
non-finite or non-positive season (resp. episode) number fails resolution with
the `InvalidParameter` error (`"Invalid season"` / `"Invalid episode"`), for
every season response whatsoever — the season fetch cannot influence it. -/
theorem mediaFromTv_invalid_params_error (toNumber : String → Option ℚ)
    (env : TvEnv) (id season episode : String) (tv : TvShow)
    (htv : env.tvResp = .ok tv)
    (htitle : firstTruthyStr [tv.name, tv.original_name] ≠ "")
    (hyear : numTruthy (releaseYearOf tv.first_air_date) = true) :
    (jsFinitePos (toNumber season) = false →
      mediaFromTv toNumber env id season episode = .error "Invalid season") ∧
    (jsFinitePos (toNumber season) = true →
      jsFinitePos (toNumber episode) = false →
      mediaFromTv toNumber env id season episode = .error "Invalid episode") := by
  have hcond : (firstTruthyStr [tv.name, tv.original_name] = "" ||
      !numTruthy (releaseYearOf tv.first_air_date)) = false := by
    simp [htitle, hyear]
  constructor
  · intro h1
    rw [mediaFromTv, htv]
    simp only [hcond, Bool.false_eq_true, if_false, h1]
    rfl
  · intro h1 h2
    rw [mediaFromTv, htv]
    simp only [hcond, Bool.false_eq_true, if_false, h1, h2]
    rfl

/-- Environment for the C6 witness: complete metadata, failing season fetch. -/
def envC6ok : TvEnv :=
  { tvResp := .ok tvCompleteW, seasonResp := .error "season fetch failed",
    showExtResp := .error "ext", episodeExtResp := .error "ext" }

theorem mediaFromTv_invalid_params_error_witness :
    mediaFromTv toNumberDemo envC6ok "7" "-1" "1" = .error "Invalid season" :=
  (mediaFromTv_invalid_params_error toNumberDemo envC6ok "7" "-1" "1" tvCompleteW
    rfl (by decide) (by decide)).1 rfl

/-- The episode the C4 witness finds. -/
def epW : TvEpisode :=
  { episode_number := 1, id := 101, name := some "Ep", imdb_id := some "tt3" }

/-- Season payload for the C4 witness. -/
def seasonW : TvSeason := { id := 99, name := some "Season 1", episodes := some [epW] }

/-- Environment for the C4 witness: episode-level cross-ref `tt1` and
show-level cross-ref `tt2` both present. -/
def envC4 : TvEnv :=
  { tvResp := .ok tvCompleteW, seasonResp := .ok seasonW,
    showExtResp := .ok { imdb_id := some "tt2" },
    episodeExtResp := .ok { imdb_id := some "tt1" } }

theorem mediaFromTv_imdbId_precedence_witness :
    (mediaFromTv toNumberDemo envC4 "7" "1" "1").map (fun m => m.imdbId) =
      .ok (some "tt1") := by
  obtain ⟨m, hm⟩ : ∃ m, mediaFromTv toNumberDemo envC4 "7" "1" "1" = .ok m :=
    ⟨_, rfl⟩
  have he := (mediaFromTv_imdbId_precedence).2 toNumberDemo envC4 "7" "1" "1"
    tvCompleteW seasonW epW m rfl rfl (by decide) hm
  rw [hm]
  simp only [Except.map, he]
  rfl

/-! ### Subtitle fetcher (`fetchOpenSubtitlesCaptions`) -/

/-- JS truthiness of a possibly-`undefined` value. -/
def jTruthyOpt : Option JVal → Bool
  | some v => jTruthy v
  | none => false

/-- JS `a || b` over possibly-`undefined` values. -/
def jOr (a b : Option JVal) : Option JVal :=
  if jTruthyOpt a then a else b

mutual

/-- JS `String(x)` on JSON values (a platform built-in): strings verbatim,
primitives in their literal spellings, objects as `"[object Object]"`, arrays
joined with `","` with null elements rendered empty (the depth-one behaviour of
`Array.prototype.join`; the fields in play are primitive). -/
def jToStr : JVal → String
  | .null => "null"
  | .bool b => if b then "true" else "false"
  | .num n => toString n
  | .str s => s
  | .arr xs => jToStrArr xs
  | .obj _ => "[object Object]"

/-- JS `Array.prototype.join(",")`. -/
def jToStrArr : List JVal → String
  | [] => ""
  | [x] => jToStrElem x
  | x :: xs => jToStrElem x ++ "," ++ jToStrArr xs

/-- An element under `join`: null renders empty. -/
def jToStrElem : JVal → String
  | .null => ""
  | v => jToStr v

end

/-- JS `.toLowerCase()` as a character-level map (equal to `String.toLower`,
restated over the character list so that it evaluates by reduction). -/
def jsToLower (s : String) : String := String.mk (s.data.map Char.toLower)

/-- JS `String.prototype.replace` with a plain-string pattern: replace the
first occurrence only. -/
def replaceFirst (s pat sub : String) : String :=
  match s.splitOn pat with
  | [] => s
  | [x] => x
  | x :: rest => x ++ sub ++ String.intercalate pat rest

/-- Rewrite `raw.replace(".gz", "").replace("download/", "download/subencoding-utf8/")`. -/
def osRewriteUrl (raw : String) : String :=
  replaceFirst (replaceFirst raw ".gz" "") "download/" "download/subencoding-utf8/"

/-- Property access `item[k]` on an upstream payload entry: the outer `none`
models the TypeError thrown on `null` (caught by the surrounding `try`, which
turns the whole fetch into `[]`); `some none` is `undefined`. -/
def jFieldAcc : JVal → String → Option (Option JVal)
  | .null, _ => none
  | .obj fs, k => some (lookupField fs k)
  | _, _ => some none

/-- The normalized caption record produced for one upstream entry. -/
structure CapRec where
  id : JVal
  language : String
  url : String
  type : JVal
  needsProxy : Bool
  opensubtitles : Bool
  source : String
deriving Repr, DecidableEq

/-- The body of the `data.map((item) => ...)` callback: `none` models a thrown
TypeError (property access on `null`, or `.replace` on a truthy non-string
download link). -/
def mapOsItem (imdbId : String) (rand : String) (item : JVal) : Option CapRec := do
  let dlink ← jFieldAcc item "SubDownloadLink"
  let dlink2 ← jFieldAcc item "SubDownload_Link"
  let downloadUrlRaw : JVal := (jOr dlink (jOr dlink2 (some (.str "")))).getD .null
  let downloadUrl : Option String ←
    if jTruthy downloadUrlRaw then
      match downloadUrlRaw with
      | .str s => some (some (osRewriteUrl s))
      | _ => none
    else some none
  let iso ← jFieldAcc item "ISO639"
  let lname ← jFieldAcc item "LanguageName"
  let language :=
    let l1 := if jTruthyOpt iso then jsToLower (jToStr (iso.getD .null)) else ""
    if l1 ≠ "" then l1
    else if jTruthyOpt lname then jsToLower (jToStr (lname.getD .null)) else ""
  let vID ← jFieldAcc item "ID"
  let vSFI ← jFieldAcc item "SubFileId"
  let idv : JVal :=
    match downloadUrl with
    | some u =>
        if u ≠ "" then .str u
        else if jTruthyOpt vID then vID.getD .null
        else if jTruthyOpt vSFI then vSFI.getD .null
        else .str (imdbId ++ "-" ++ rand)
    | none =>
        if jTruthyOpt vID then vID.getD .null
        else if jTruthyOpt vSFI then vSFI.getD .null
        else .str (imdbId ++ "-" ++ rand)
  let fmt ← jFieldAcc item "SubFormat"
  pure
    { id := idv
      language := language
      url := downloadUrl.getD ""
      type := if jTruthyOpt fmt then fmt.getD .null else .str "srt"
      needsProxy := false
      opensubtitles := true
      source := "opensubs" }

/-- Map `data.map(..)` with the per-item `Math.random()` stream indexed by
position; `none` when any callback throws. -/
def mapOsItems (imdbId : String) (rand : Nat → String) :
    Nat → List JVal → Option (List CapRec)
  | _, [] => some []
  | i, x :: xs => do
      pure ((← mapOsItem imdbId (rand i) x) :: (← mapOsItems imdbId rand (i + 1) xs))

/-- Strip `imdbId.startsWith("tt") ? imdbId.slice(2) : imdbId`, at the character
level (JS `startsWith`/`slice` count UTF-16 units, which coincides with
characters for these ASCII ids). -/
def imdbNumeric (imdbId : String) : String :=
  match imdbId.data with
  | 't' :: 't' :: rest => String.mk rest
  | _ => imdbId

/-- JS number-to-string inside the template literal, for the integral values
in play. -/
def jsNumToStr (q : ℚ) : String :=
  if q.den = 1 then toString q.num else toString q

/-- JS truthiness of the optional season/episode numbers (`season && episode`):
`undefined`, NaN and 0 are falsy. -/
def numQTruthy : Option ℚ → Bool
  | some q => q != 0
  | none => false

/-- The query path: episode-scoped when both season and episode are truthy,
whole-title otherwise. -/
def osSearchPath (imdbId : String) (season episode : Option ℚ) : String :=
  if numQTruthy season && numQTruthy episode then
    "episode-" ++ jsNumToStr (episode.getD 0) ++ "/imdbid-" ++ imdbNumeric imdbId ++
      "/season-" ++ jsNumToStr (season.getD 0)
  else "imdbid-" ++ imdbNumeric imdbId

/-- The upstream HTTP response: success flag and the `res.json()` outcome
(`Except.error` = JSON parse failure, thrown and caught). -/
structure OsResp where
  ok : Bool
  body : Except Unit JVal

/-- One run's upstream interaction: the transport keyed by the requested URL,
plus the `Math.random()` stream for fallback ids. -/
structure OsEnv where
  fetch : String → Except Unit OsResp
  rand : Nat → String

/-- The full request URL. -/
def osUrl (imdbId : String) (season episode : Option ℚ) : String :=
  "https://rest.opensubtitles.org/search/" ++ osSearchPath imdbId season episode

/-- Source `fetchOpenSubtitlesCaptions` from `server.js` (identical in `app.js`). -/
def fetchOpenSubtitlesCaptions (env : OsEnv) (imdbId : String)
    (season episode : Option ℚ) : List CapRec :=
  if imdbId = "" then []
  else
    match env.fetch (osUrl imdbId season episode) with
    | .error _ => []
    | .ok res =>
        if !res.ok then []
        else
          match res.body with
          | .error _ => []
          | .ok data =>
              match data with
              | .arr items =>
                  match mapOsItems imdbId env.rand 0 items with
                  | none => []
                  | some recs => recs.filter (fun r => r.url != "")
              | _ => []

/-- C5: the fetcher never throws to its caller (it is a total function into
caption lists) and returns the empty sequence when the cross-reference id is
falsy, when the transport fails, when the upstream status is not ok, or when
the payload is not an array; and every record it does return has a non-empty
url. -/
theorem fetchOpenSubtitlesCaptions_safe (env : OsEnv) (imdbId : String)
    (season episode : Option ℚ) :
    (imdbId = "" → fetchOpenSubtitlesCaptions env imdbId season episode = []) ∧
    (∀ u, env.fetch (osUrl imdbId season episode) = .error u →
      fetchOpenSubtitlesCaptions env imdbId season episode = []) ∧
    (∀ r, env.fetch (osUrl imdbId season episode) = .ok r → r.ok = false →
      fetchOpenSubtitlesCaptions env imdbId season episode = []) ∧
    (∀ r d, env.fetch (osUrl imdbId season episode) = .ok r → r.body = .ok d →
      (∀ xs, d ≠ .arr xs) →
      fetchOpenSubtitlesCaptions env imdbId season episode = []) ∧
    (∀ rec ∈ fetchOpenSubtitlesCaptions env imdbId season episode,
      rec.url ≠ "") := by
  refine ⟨?_, ?_, ?_, ?_, ?_⟩
  · intro h
    simp [fetchOpenSubtitlesCaptions, h]
  · intro u hu
    simp [fetchOpenSubtitlesCaptions, hu]
  · intro r hr hok
    simp [fetchOpenSubtitlesCaptions, hr, hok]
  · intro r d hr hb hnarr
    by_cases h0 : imdbId = ""
    · simp [fetchOpenSubtitlesCaptions, h0]
    · cases d with
      | arr xs => exact absurd rfl (hnarr xs)
      | null => simp [fetchOpenSubtitlesCaptions, h0, hr, hb]
      | bool b => simp [fetchOpenSubtitlesCaptions, h0, hr, hb]
      | num n => simp [fetchOpenSubtitlesCaptions, h0, hr, hb]
      | str s => simp [fetchOpenSubtitlesCaptions, h0, hr, hb]
      | obj fs => simp [fetchOpenSubtitlesCaptions, h0, hr, hb]
  · intro rec hrec
    by_cases h0 : imdbId = ""
    · simp [fetchOpenSubtitlesCaptions, h0] at hrec
    · rw [fetchOpenSubtitlesCaptions, if_neg h0] at hrec
      cases hf : env.fetch (osUrl imdbId season episode) with
      | error u => simp [hf] at hrec
      | ok r =>
          rw [hf] at hrec
          cases hok : r.ok with
          | false => simp [hok] at hrec
          | true =>
              simp only [hok, Bool.not_true, Bool.false_eq_true, if_false] at hrec
              cases hb : r.body with
              | error u => simp [hb] at hrec
              | ok d =>
                  rw [hb] at hrec
                  cases d with
                  | arr xs =>
                      simp only at hrec
                      cases hm : mapOsItems imdbId env.rand 0 xs with
                      | none => simp [hm] at hrec
                      | some recs =>
                          rw [hm] at hrec
                          simp only at hrec
                          have := (List.mem_filter.mp hrec).2
                          simpa using this
                  | null => simp at hrec
                  | bool b => simp at hrec
                  | num n => simp at hrec
                  | str s => simp at hrec
                  | obj fs => simp at hrec

/-- Environment for the C5 witness: a failing transport. -/
def osEnvFailW : OsEnv := { fetch := fun _ => .error (), rand := fun _ => "r" }

theorem fetchOpenSubtitlesCaptions_safe_witness :
    fetchOpenSubtitlesCaptions osEnvFailW "tt0133093" none none = [] :=
  (fetchOpenSubtitlesCaptions_safe osEnvFailW "tt0133093" none none).2.1 () rfl

/-- C7 counterexample: the code strips only the literal prefix `"tt"`; an id
beginning with the two-character alphabetic prefix `"ab"` reaches the upstream
path unstripped, where the claim requires the bare numeric form. -/
theorem osSearchPath_alpha_prefix_cex :
    (("ab123" : String).data.take 2).all Char.isAlpha = true ∧
    osSearchPath "ab123" none none = "imdbid-ab123" ∧
    osSearchPath "ab123" none none ≠ "imdbid-123" :=
  ⟨by decide, rfl, by decide⟩

/-- C7 (amended): exactly the literal prefix `"tt"` is stripped before the
upstream path is built; every other id — alphabetic two-character prefix or
not — passes through unchanged. -/
theorem osSearchPath_strips_tt_only :
    (∀ s r, s.data = 't' :: 't' :: r →
      osSearchPath s none none = "imdbid-" ++ String.mk r) ∧
    (∀ s, (∀ r, s.data ≠ 't' :: 't' :: r) →
      osSearchPath s none none = "imdbid-" ++ s) := by
  have hc : numQTruthy none = false := rfl
  constructor
  · intro s r h
    simp only [osSearchPath, hc, Bool.false_and, Bool.false_eq_true, if_false]
    congr 1
    simp only [imdbNumeric, h]
  · intro s h
    simp only [osSearchPath, hc, Bool.false_and, Bool.false_eq_true, if_false]
    congr 1
    unfold imdbNumeric
    split
    · rename_i rest heq
      exact absurd heq (h rest)
    · rfl

theorem osSearchPath_strips_tt_only_witness :
    osSearchPath "tt0133093" none none =
      "imdbid-" ++ String.mk ['0', '1', '3', '3', '0', '9', '3'] :=
  osSearchPath_strips_tt_only.1 "tt0133093"
    ['0', '1', '3', '3', '0', '9', '3'] (by decide)

/-! ### First-success provider search (`findFirstProvider`) -/

/-- A provider source listing entry (`id` and supported media types). -/
structure SourceMeta where
  id : String
  mediaTypes : List String
deriving Repr, DecidableEq

/-- An embed listing entry. -/
structure EmbedMeta where
  id : String
deriving Repr, DecidableEq

/-- An embed reference yielded by a source scraper. -/
structure EmbedRef where
  embedId : String
  url : String
deriving Repr, DecidableEq

/-- A scraper output: a `stream` sequence and an `embeds` sequence (an absent
field is the empty sequence; the code checks `out.stream && out.stream.length
> 0`). -/
structure ScrapeOut where
  stream : List JVal
  embeds : List EmbedRef
deriving Repr

/-- One request's provider engine: the cached listings and the two scrapers
(the media descriptor is fixed for the request, so `runSource` is keyed by the
source id alone, and `runEmbed` by embed id and url; `Except.error` is a
throw, which the loops swallow). -/
structure ProvEnv where
  sourceMetas : List SourceMeta
  embedMetas : List EmbedMeta
  runSource : String → Except Unit ScrapeOut
  runEmbed : String → String → Except Unit ScrapeOut

/-- The first-success result `{sourceId, embedId?, stream}`. -/
structure ProviderResult where
  sourceId : String
  embedId : Option String
  stream : JVal
deriving Repr, DecidableEq

/-- Constant `ALWAYS_EXCLUDED_SOURCE_IDS`. -/
def ALWAYS_EXCLUDED_SOURCE_IDS : List String := ["fsharetv"]

/-- Sources compatible with the media type, minus the excluded ids
(`String(s.id).toLowerCase()` — ids are strings already). -/
def compatibleSources (env : ProvEnv) (mediaType : String)
    (excluded : List String) : List SourceMeta :=
  (env.sourceMetas.filter (fun s => s.mediaTypes.contains mediaType)).filter
    (fun s => !excluded.contains (jsToLower s.id))

/-- The JS comparator as a sort key: the position of the embed's type in the
embed-metadata listing (all unlisted types share the past-the-end position),
tie-broken by the embed's original index `_i`.  Original indexes are distinct,
so the key order is strict and every comparison sort — in particular
`Array.prototype.sort` with the source's comparator, which returns `ai - bi`,
`±1` for listed-versus-unlisted, and `a._i - b._i` — produces exactly the
key-sorted order. -/
def embedKey (embedMetas : List EmbedMeta) (e : EmbedRef) (i : Nat) : Nat × Nat :=
  match embedMetas.findIdx? (fun m => m.id == e.embedId) with
  | some ai => (ai, i)
  | none => (embedMetas.length, i)

/-- Lexicographic order on sort keys. -/
def keyLE (x y : Nat × Nat) : Bool :=
  decide (x.1 < y.1) || (decide (x.1 = y.1) && decide (x.2 ≤ y.2))

theorem keyLE_total (x y : Nat × Nat) : keyLE x y = true ∨ keyLE y x = true := by
  simp only [keyLE, Bool.or_eq_true, Bool.and_eq_true, decide_eq_true_eq]
  omega

theorem keyLE_trans (x y z : Nat × Nat) (h1 : keyLE x y = true)
    (h2 : keyLE y z = true) : keyLE x z = true := by
  simp only [keyLE, Bool.or_eq_true, Bool.and_eq_true, decide_eq_true_eq] at *
  omega

/-- Insert into a sorted list (the model of the comparison sort). -/
def insertByKey {α : Type} (le : α → α → Bool) (x : α) : List α → List α
  | [] => [x]
  | y :: ys => if le x y then x :: y :: ys else y :: insertByKey le x ys

/-- Sort by a boolean order. -/
def sortByKey {α : Type} (le : α → α → Bool) : List α → List α
  | [] => []
  | x :: xs => insertByKey le x (sortByKey le xs)

theorem insertByKey_perm {α : Type} (le : α → α → Bool) (x : α) :
    ∀ l : List α, (insertByKey le x l).Perm (x :: l)
  | [] => List.Perm.refl _
  | y :: ys => by
      unfold insertByKey
      split
      · exact List.Perm.refl _
      · exact ((insertByKey_perm le x ys).cons y).trans (List.Perm.swap x y ys)

theorem sortByKey_perm {α : Type} (le : α → α → Bool) :
    ∀ l : List α, (sortByKey le l).Perm l
  | [] => List.Perm.refl _
  | x :: xs => by
      unfold sortByKey
      exact (insertByKey_perm le x _).trans ((sortByKey_perm le xs).cons x)

theorem insertByKey_pairwise {α : Type} (le : α → α → Bool)
    (htot : ∀ a b : α, le a b = true ∨ le b a = true)
    (htrans : ∀ a b c : α, le a b = true → le b c = true → le a c = true)
    (x : α) : ∀ l : List α, List.Pairwise (fun a b => le a b = true) l →
      List.Pairwise (fun a b => le a b = true) (insertByKey le x l)
  | [], _ => by simp [insertByKey]
  | y :: ys, h => by
      unfold insertByKey
      obtain ⟨h1, h2⟩ := List.pairwise_cons.mp h
      by_cases hxy : le x y = true
      · rw [if_pos hxy]
        refine List.Pairwise.cons ?_ h
        intro z hz
        rcases List.mem_cons.mp hz with rfl | hz2
        · exact hxy
        · exact htrans x y z hxy (h1 z hz2)
      · rw [if_neg hxy]
        have hyx : le y x = true := (htot x y).resolve_left hxy
        refine List.pairwise_cons.mpr
          ⟨?_, insertByKey_pairwise le htot htrans x ys h2⟩
        intro z hz
        have hmem := (insertByKey_perm le x ys).mem_iff.mp hz
        rcases List.mem_cons.mp hmem with rfl | hz2
        · exact hyx
        · exact h1 z hz2

theorem sortByKey_pairwise {α : Type} (le : α → α → Bool)
    (htot : ∀ a b : α, le a b = true ∨ le b a = true)
    (htrans : ∀ a b c : α, le a b = true → le b c = true → le a c = true) :
    ∀ l : List α, List.Pairwise (fun a b => le a b = true) (sortByKey le l)
  | [] => List.Pairwise.nil
  | x :: xs => by
      unfold sortByKey
      exact insertByKey_pairwise le htot htrans x _
        (sortByKey_pairwise le htot htrans xs)

/-- The boolean order on enumerated embeds. -/
def embedLE (embedMetas : List EmbedMeta) (a b : Nat × EmbedRef) : Bool :=
  keyLE (embedKey embedMetas a.2 a.1) (embedKey embedMetas b.2 b.1)

/-- Sort `out.embeds.map((e, i) => ({...e, _i: i})).sort(comparator)`, still
carrying the original indexes. -/
def orderEmbedsEnum (embedMetas : List EmbedMeta) (embeds : List EmbedRef) :
    List (Nat × EmbedRef) :=
  sortByKey (embedLE embedMetas) embeds.enum

/-- The ordered embeds as tried by the loop. -/
def orderEmbeds (embedMetas : List EmbedMeta) (embeds : List EmbedRef) :
    List EmbedRef :=
  (orderEmbedsEnum embedMetas embeds).map Prod.snd

/-- The inner `for (const emb of orderedEmbeds)` loop: the first embed whose
scraper yields a non-empty stream wins; a throwing embed is skipped. -/
def tryEmbedsLoop (env : ProvEnv) (sid : String) :
    List EmbedRef → Option ProviderResult
  | [] => none
  | e :: rest =>
      match env.runEmbed e.embedId e.url with
      | .ok eout =>
          match eout.stream with
          | s :: _ => some { sourceId := sid, embedId := some e.embedId, stream := s }
          | [] => tryEmbedsLoop env sid rest
      | .error _ => tryEmbedsLoop env sid rest

/-- The outer `for (const src of compatibleSources)` loop of
`findFirstProvider`: a direct stream wins immediately; otherwise non-empty
embeds are ordered and tried; a throwing source is skipped. -/
def sourcesLoop (env : ProvEnv) : List SourceMeta → Option ProviderResult
  | [] => none
  | src :: rest =>
      match env.runSource src.id with
      | .error _ => sourcesLoop env rest
      | .ok out =>
          match out.stream with
          | s :: _ => some { sourceId := src.id, embedId := none, stream := s }
          | [] =>
              if out.embeds.isEmpty then sourcesLoop env rest
              else
                match tryEmbedsLoop env src.id
                    (orderEmbeds env.embedMetas out.embeds) with
                | some r => some r
                | none => sourcesLoop env rest

/-- Source `findFirstProvider` from `server.js` (the `excluded` parameter defaults to
`ALWAYS_EXCLUDED_SOURCE_IDS` at the call sites). -/
def findFirstProvider (env : ProvEnv) (mediaType : String)
    (excluded : List String) : Option ProviderResult :=
  sourcesLoop env (compatibleSources env mediaType excluded)

/-- The attempt made for a single ordered embed. -/
def embedAttempt (env : ProvEnv) (sid : String) (e : EmbedRef) :
    Option ProviderResult :=
  match env.runEmbed e.embedId e.url with
  | .ok eout =>
      match eout.stream with
      | s :: _ => some { sourceId := sid, embedId := some e.embedId, stream := s }
      | [] => none
  | .error _ => none

theorem tryEmbedsLoop_eq_findSome (env : ProvEnv) (sid : String) :
    ∀ l, tryEmbedsLoop env sid l = l.findSome? (embedAttempt env sid)
  | [] => rfl
  | e :: rest => by
      rw [tryEmbedsLoop, List.findSome?_cons]
      cases he : env.runEmbed e.embedId e.url with
      | error u => simp [embedAttempt, he, tryEmbedsLoop_eq_findSome env sid rest]
      | ok eout =>
          cases hs : eout.stream with
          | nil => simp [embedAttempt, he, hs, tryEmbedsLoop_eq_findSome env sid rest]
          | cons s ss => simp [embedAttempt, he, hs]

/-- C8: in first-success mode, when the first compatible source yields only
embeds, the embeds are tried in the order of their embed-type's position in the
embed-metadata listing — unlisted types after all listed ones, ties broken by
the original order — and the first embed yielding a stream determines the
result `{sourceId, embedId, stream}`.  The ordered list is a permutation of
the yielded embeds, sorted (with original indexes attached) by the comparator
key, and the loop is `findSome?` of the single-embed attempt over it. -/
theorem findFirstProvider_embed_order (env : ProvEnv) (mediaType : String)
    (excluded : List String) (src : SourceMeta) (tail : List SourceMeta)
    (embeds : List EmbedRef) (r : ProviderResult)
    (hcomp : compatibleSources env mediaType excluded = src :: tail)
    (hsrc : env.runSource src.id = .ok { stream := [], embeds := embeds })
    (hr : tryEmbedsLoop env src.id (orderEmbeds env.embedMetas embeds) = some r) :
    findFirstProvider env mediaType excluded = some r ∧
    (orderEmbeds env.embedMetas embeds).Perm embeds ∧
    List.Pairwise (fun a b => embedLE env.embedMetas a b = true)
      (orderEmbedsEnum env.embedMetas embeds) ∧
    tryEmbedsLoop env src.id (orderEmbeds env.embedMetas embeds) =
      (orderEmbeds env.embedMetas embeds).findSome? (embedAttempt env src.id) := by
  refine ⟨?_, ?_, ?_, tryEmbedsLoop_eq_findSome env src.id _⟩
  · rw [findFirstProvider, hcomp, sourcesLoop, hsrc]
    simp only
    cases hemb : embeds with
    | nil =>
        subst hemb
        exact absurd hr (by simp [orderEmbeds, orderEmbedsEnum, sortByKey,
          tryEmbedsLoop, List.enum])
    | cons e es =>
        rw [← hemb]
        rw [if_neg (by simp [hemb])]
        rw [hr]
  · have hp : (orderEmbedsEnum env.embedMetas embeds).Perm embeds.enum :=
      sortByKey_perm _ _
    have hm := hp.map Prod.snd
    rw [orderEmbeds]
    refine hm.trans ?_
    rw [List.enum_map_snd]
  · exact sortByKey_pairwise (embedLE env.embedMetas)
      (fun a b => keyLE_total (embedKey env.embedMetas a.2 a.1)
        (embedKey env.embedMetas b.2 b.1))
      (fun a b c h1 h2 => keyLE_trans _ _ _ h1 h2) _

/-- Witness embeds: the listed type `embA` comes after the unlisted `embZ` in
the original order, so the ordering must move it first. -/
def embedsW : List EmbedRef := [{ embedId := "embZ", url := "u1" },
  { embedId := "embA", url := "u2" }]

/-- Witness provider environment: one compatible source yielding only
`embedsW`; the listed embed scrapes to a stream, the unlisted one to none. -/
def provEnvW : ProvEnv :=
  { sourceMetas := [{ id := "srcA", mediaTypes := ["movie"] }],
    embedMetas := [{ id := "embA" }],
    runSource := fun sid =>
      if sid = "srcA" then .ok { stream := [], embeds := embedsW } else .error (),
    runEmbed := fun eid _ =>
      if eid = "embA" then .ok { stream := [.str "S2"], embeds := [] }
      else .ok { stream := [], embeds := [] } }

theorem findFirstProvider_embed_order_witness :
    findFirstProvider provEnvW "movie" ALWAYS_EXCLUDED_SOURCE_IDS =
      some { sourceId := "srcA", embedId := some "embA", stream := .str "S2" } :=
  (findFirstProvider_embed_order provEnvW "movie" ALWAYS_EXCLUDED_SOURCE_IDS
    { id := "srcA", mediaTypes := ["movie"] } [] embedsW
    { sourceId := "srcA", embedId := some "embA", stream := .str "S2" }
    (by decide) (by rfl) (by rfl)).1
